import Mathlib

/-!
Shallow embedding of `src/kibo.py` (the `ServoController` trajectory
controller) over exact rational arithmetic, together with proofs of the
specification's claims about it.

Python floats are modelled by `ℚ`; the per-channel dictionaries
`_current`, `_target`, `_delta`, `_steps_left` become functions `Int → _`
updated pointwise; the worker tick and the `move` loop become structural
recursions over the `channels` list, threading the state exactly as the
Python `for` loops mutate it in place.
-/

namespace Kibo

/-- The `Limits` dataclass of `kibo.py`: per-channel safety envelope. -/
structure Limits where
  min_angle : ℚ
  max_angle : ℚ
  center : ℚ
  name : String
deriving Repr, DecidableEq

/-- Method `Limits.clamp`: `max(self.min_angle, min(self.max_angle, value))`. -/
def Limits.clamp (l : Limits) (value : ℚ) : ℚ :=
  max l.min_angle (min l.max_angle value)

/-- The `DEFAULT_LIMITS` table of `kibo.py` (total function; channels
outside 0–3 would be a `KeyError` in Python and are never consulted for
the default channel list). -/
def DEFAULT_LIMITS : Int → Limits := fun ch =>
  if ch = 0 then ⟨30, 80, 55, "bob"⟩
  else if ch = 1 then ⟨0, 180, 90, "sway"⟩
  else if ch = 2 then ⟨40, 140, 90, "ear wiggle"⟩
  else ⟨0, 180, 60, "nodding"⟩

/-- Python `int()` applied to a rational: truncation toward zero. -/
def pyInt (q : ℚ) : Int :=
  if 0 ≤ q then ⌊q⌋ else -⌊-q⌋

/-- The mutable state of a `ServoController`: `channels`, the merged
`limits` table, `self.tick`, the four per-channel dictionaries, and the
`_stop_evt` flag. -/
structure State where
  channels : List Int
  limits : Int → Limits
  tick : ℚ
  current : Int → ℚ
  target : Int → ℚ
  delta : Int → ℚ
  stepsLeft : Int → Nat
  stopped : Bool

/-- Constructor `ServoController.__init__`: each active channel starts at the
hardware-reported angle if that is truthy (non-`None` and non-zero),
otherwise at the channel's center; targets equal currents, deltas are 0,
no steps remain, the controller is running. -/
def initState (channels : List Int) (limits : Int → Limits) (tickHz : ℚ)
    (reported : Int → Option ℚ) : State :=
  let cur : Int → ℚ := fun ch =>
    match reported ch with
    | none => (limits ch).center
    | some a => if a = 0 then (limits ch).center else a
  { channels := channels
    limits := limits
    tick := 1 / tickHz
    current := cur
    target := cur
    delta := fun _ => 0
    stepsLeft := fun _ => 0
    stopped := false }

/-- Dict access `targets.get(ch, None)`: a dict entry may itself hold `None`, and a
missing key also yields `None`. -/
def lookupT (targets : List (Int × Option ℚ)) (ch : Int) : Option ℚ :=
  match targets.lookup ch with
  | some v => v
  | none => none

/-- The body of `move`'s loop for one channel with a non-null angle:
clamp, then install target, delta and step count for that channel. -/
def moveCh (steps : Nat) (s : State) (ch : Int) (a : ℚ) : State :=
  let na := (s.limits ch).clamp a
  let cur := s.current ch
  { s with
    target := fun c => if c = ch then na else s.target c
    delta := fun c => if c = ch then (na - cur) / (steps : ℚ) else s.delta c
    stepsLeft := fun c => if c = ch then steps else s.stepsLeft c }

/-- The `for ch in self.channels` loop of `move`. -/
def moveLoop (targets : List (Int × Option ℚ)) (steps : Nat) :
    State → List Int → State
  | s, [] => s
  | s, ch :: rest =>
    match lookupT targets ch with
    | none => moveLoop targets steps s rest
    | some a => moveLoop targets steps (moveCh steps s ch a) rest

/-- The step count `move` installs: non-positive durations are replaced
by one tick interval, then `steps = max(1, int(duration / self.tick))`. -/
def stepsFor (s : State) (duration : ℚ) : Nat :=
  let d := if duration ≤ 0 then s.tick else duration
  (max 1 (pyInt (d / s.tick))).toNat

/-- Method `ServoController.move`. -/
def move (s : State) (targets : List (Int × Option ℚ)) (duration : ℚ) :
    State :=
  moveLoop targets (stepsFor s duration) s s.channels

/-- Method `ServoController.center_all`. -/
def center_all (s : State) (duration : ℚ) : State :=
  move s (s.channels.map fun ch => (ch, some ((s.limits ch).center))) duration

/-- Method `ServoController.get_angles`: snapshot of `_current` over the active
channels. -/
def get_angles (s : State) : List (Int × ℚ) :=
  s.channels.map fun ch => (ch, s.current ch)

/-- Method `ServoController.stop`: sets the stop event (the worker then exits). -/
def stop (s : State) : State :=
  { s with stopped := true }

/-- The state mutation of one in-motion channel inside a worker tick:
add the delta to the current angle and decrement the step counter (these
assignments precede the driver write in the source). -/
def tickCh (s : State) (ch : Int) : State :=
  { s with
    current := fun c => if c = ch then s.current ch + s.delta ch else s.current c
    stepsLeft := fun c => if c = ch then s.stepsLeft c - 1 else s.stepsLeft c }

/-- One worker tick over a channel list. Each in-motion channel is
updated with `tickCh` and then written to the driver; if the write
raises (`fails ch`), the exception escapes the loop: the state mutations
already made stick, no write is recorded for the failing channel, the
remaining channels are not processed, and the returned flag records that
the loop aborted. -/
def tickChannels (fails : Int → Bool) :
    State → List Int → State × List (Int × ℚ) × Bool
  | s, [] => (s, [], false)
  | s, ch :: rest =>
    if 0 < s.stepsLeft ch then
      if fails ch then (tickCh s ch, [], true)
      else
        let r := tickChannels fails (tickCh s ch) rest
        (r.1, (ch, s.current ch + s.delta ch) :: r.2.1, r.2.2)
    else tickChannels fails s rest

/-- One iteration of `ServoController._worker`'s loop, with a per-channel
driver-failure model. -/
def tickFail (fails : Int → Bool) (s : State) : State × List (Int × ℚ) × Bool :=
  tickChannels fails s s.channels

/-- One failure-free worker tick: the resulting state. -/
def tickOk (s : State) : State :=
  (tickFail (fun _ => false) s).1

/-- One failure-free worker tick: the driver writes it performs. -/
def tickWrites (s : State) : List (Int × ℚ) :=
  (tickFail (fun _ => false) s).2.1

/-! ### Frame lemmas for the move loop -/

lemma moveLoop_channels (t : List (Int × Option ℚ)) (k : Nat) :
    ∀ (l : List Int) (s : State), (moveLoop t k s l).channels = s.channels := by
  intro l
  induction l with
  | nil => intro s; rfl
  | cons c rest ih =>
    intro s
    show (moveLoop t k s (c :: rest)).channels = s.channels
    unfold moveLoop
    cases lookupT t c with
    | none => exact ih s
    | some a => exact ih (moveCh k s c a)

lemma moveLoop_limits (t : List (Int × Option ℚ)) (k : Nat) :
    ∀ (l : List Int) (s : State), (moveLoop t k s l).limits = s.limits := by
  intro l
  induction l with
  | nil => intro s; rfl
  | cons c rest ih =>
    intro s
    unfold moveLoop
    cases lookupT t c with
    | none => exact ih s
    | some a => exact ih (moveCh k s c a)

lemma moveLoop_tick (t : List (Int × Option ℚ)) (k : Nat) :
    ∀ (l : List Int) (s : State), (moveLoop t k s l).tick = s.tick := by
  intro l
  induction l with
  | nil => intro s; rfl
  | cons c rest ih =>
    intro s
    unfold moveLoop
    cases lookupT t c with
    | none => exact ih s
    | some a => exact ih (moveCh k s c a)

lemma moveLoop_current (t : List (Int × Option ℚ)) (k : Nat) :
    ∀ (l : List Int) (s : State), (moveLoop t k s l).current = s.current := by
  intro l
  induction l with
  | nil => intro s; rfl
  | cons c rest ih =>
    intro s
    unfold moveLoop
    cases lookupT t c with
    | none => exact ih s
    | some a => exact ih (moveCh k s c a)

lemma moveLoop_stopped (t : List (Int × Option ℚ)) (k : Nat) :
    ∀ (l : List Int) (s : State), (moveLoop t k s l).stopped = s.stopped := by
  intro l
  induction l with
  | nil => intro s; rfl
  | cons c rest ih =>
    intro s
    unfold moveLoop
    cases lookupT t c with
    | none => exact ih s
    | some a => exact ih (moveCh k s c a)

/-- Channels the loop never visits keep their trajectory fields. -/
lemma moveLoop_not_mem (t : List (Int × Option ℚ)) (k : Nat) (ch : Int) :
    ∀ (l : List Int) (s : State), ch ∉ l →
      (moveLoop t k s l).target ch = s.target ch ∧
      (moveLoop t k s l).delta ch = s.delta ch ∧
      (moveLoop t k s l).stepsLeft ch = s.stepsLeft ch := by
  intro l
  induction l with
  | nil => intro s _; exact ⟨rfl, rfl, rfl⟩
  | cons c rest ih =>
    intro s h
    have hne : ch ≠ c := fun hh => h (hh ▸ List.mem_cons_self c rest)
    have hrest : ch ∉ rest := fun hh => h (List.mem_cons_of_mem c hh)
    unfold moveLoop
    cases lookupT t c with
    | none => exact ih s hrest
    | some a =>
      obtain ⟨h1, h2, h3⟩ := ih (moveCh k s c a) hrest
      refine ⟨?_, ?_, ?_⟩
      · rw [h1]; simp [moveCh, hne]
      · rw [h2]; simp [moveCh, hne]
      · rw [h3]; simp [moveCh, hne]

/-- A channel whose dict entry is missing or null keeps its trajectory
fields. -/
lemma moveLoop_none (t : List (Int × Option ℚ)) (k : Nat) (ch : Int)
    (hch : lookupT t ch = none) :
    ∀ (l : List Int) (s : State),
      (moveLoop t k s l).target ch = s.target ch ∧
      (moveLoop t k s l).delta ch = s.delta ch ∧
      (moveLoop t k s l).stepsLeft ch = s.stepsLeft ch := by
  intro l
  induction l with
  | nil => intro s; exact ⟨rfl, rfl, rfl⟩
  | cons c rest ih =>
    intro s
    unfold moveLoop
    cases hc : lookupT t c with
    | none => exact ih s
    | some a =>
      have hne : ch ≠ c := by
        intro hh
        rw [hh, hc] at hch
        exact Option.noConfusion hch
      obtain ⟨h1, h2, h3⟩ := ih (moveCh k s c a)
      refine ⟨?_, ?_, ?_⟩
      · rw [h1]; simp [moveCh, hne]
      · rw [h2]; simp [moveCh, hne]
      · rw [h3]; simp [moveCh, hne]

/-- A visited channel with a non-null dict entry gets the clamped target,
the interpolation delta and the step count. -/
lemma moveLoop_some (t : List (Int × Option ℚ)) (k : Nat) (ch : Int) (a : ℚ)
    (hch : lookupT t ch = some a) :
    ∀ (l : List Int) (s : State), ch ∈ l →
      (moveLoop t k s l).target ch = (s.limits ch).clamp a ∧
      (moveLoop t k s l).delta ch =
        ((s.limits ch).clamp a - s.current ch) / (k : ℚ) ∧
      (moveLoop t k s l).stepsLeft ch = k := by
  intro l
  induction l with
  | nil => intro s h; cases h
  | cons c rest ih =>
    intro s hmem
    by_cases hc : c = ch
    · subst hc
      unfold moveLoop
      rw [hch]
      by_cases hr : c ∈ rest
      · obtain ⟨h1, h2, h3⟩ := ih (moveCh k s c a) hr
        refine ⟨?_, ?_, ?_⟩
        · rw [h1]; rfl
        · rw [h2]; rfl
        · exact h3
      · obtain ⟨h1, h2, h3⟩ := moveLoop_not_mem t k c rest (moveCh k s c a) hr
        refine ⟨?_, ?_, ?_⟩
        · rw [h1]; simp [moveCh]
        · rw [h2]; simp [moveCh]
        · rw [h3]; simp [moveCh]
    · have hrest : ch ∈ rest := by
        rcases List.mem_cons.mp hmem with h | h
        · exact absurd h.symm hc
        · exact h
      unfold moveLoop
      cases hcc : lookupT t c with
      | none => exact ih s hrest
      | some b =>
        obtain ⟨h1, h2, h3⟩ := ih (moveCh k s c b) hrest
        have hne : ch ≠ c := fun hh => hc hh.symm
        refine ⟨?_, ?_, ?_⟩
        · rw [h1]; simp [moveCh, hne]
        · rw [h2]; simp [moveCh, hne]
        · exact h3

lemma stepsFor_pos (s : State) (d : ℚ) : 0 < stepsFor s d := by
  have h : ∀ x : Int, 0 < (max 1 x).toNat := by intro x; omega
  exact h _

/-! ### Frame lemmas for the tick loop -/

lemma tickChannels_channels (fails : Int → Bool) :
    ∀ (l : List Int) (s : State),
      (tickChannels fails s l).1.channels = s.channels := by
  intro l
  induction l with
  | nil => intro s; rfl
  | cons c rest ih =>
    intro s
    unfold tickChannels
    by_cases h0 : 0 < s.stepsLeft c
    · simp only [if_pos h0]
      by_cases hf : fails c
      · simp [hf, tickCh]
      · simp only [hf, if_neg, Bool.false_eq_true, not_false_iff]
        exact ih _
    · simp only [if_neg h0]
      exact ih s

lemma tickChannels_limits (fails : Int → Bool) :
    ∀ (l : List Int) (s : State),
      (tickChannels fails s l).1.limits = s.limits := by
  intro l
  induction l with
  | nil => intro s; rfl
  | cons c rest ih =>
    intro s
    unfold tickChannels
    by_cases h0 : 0 < s.stepsLeft c
    · simp only [if_pos h0]
      by_cases hf : fails c
      · simp [hf, tickCh]
      · simp only [hf, Bool.false_eq_true, if_neg, not_false_iff]
        exact ih _
    · simp only [if_neg h0]
      exact ih s

lemma tickChannels_tick (fails : Int → Bool) :
    ∀ (l : List Int) (s : State),
      (tickChannels fails s l).1.tick = s.tick := by
  intro l
  induction l with
  | nil => intro s; rfl
  | cons c rest ih =>
    intro s
    unfold tickChannels
    by_cases h0 : 0 < s.stepsLeft c
    · simp only [if_pos h0]
      by_cases hf : fails c
      · simp [hf, tickCh]
      · simp only [hf, Bool.false_eq_true, if_neg, not_false_iff]
        exact ih _
    · simp only [if_neg h0]
      exact ih s

lemma tickChannels_target (fails : Int → Bool) :
    ∀ (l : List Int) (s : State),
      (tickChannels fails s l).1.target = s.target := by
  intro l
  induction l with
  | nil => intro s; rfl
  | cons c rest ih =>
    intro s
    unfold tickChannels
    by_cases h0 : 0 < s.stepsLeft c
    · simp only [if_pos h0]
      by_cases hf : fails c
      · simp [hf, tickCh]
      · simp only [hf, Bool.false_eq_true, if_neg, not_false_iff]
        exact ih _
    · simp only [if_neg h0]
      exact ih s

lemma tickChannels_delta (fails : Int → Bool) :
    ∀ (l : List Int) (s : State),
      (tickChannels fails s l).1.delta = s.delta := by
  intro l
  induction l with
  | nil => intro s; rfl
  | cons c rest ih =>
    intro s
    unfold tickChannels
    by_cases h0 : 0 < s.stepsLeft c
    · simp only [if_pos h0]
      by_cases hf : fails c
      · simp [hf, tickCh]
      · simp only [hf, Bool.false_eq_true, if_neg, not_false_iff]
        exact ih _
    · simp only [if_neg h0]
      exact ih s

lemma tickChannels_stopped (fails : Int → Bool) :
    ∀ (l : List Int) (s : State),
      (tickChannels fails s l).1.stopped = s.stopped := by
  intro l
  induction l with
  | nil => intro s; rfl
  | cons c rest ih =>
    intro s
    unfold tickChannels
    by_cases h0 : 0 < s.stepsLeft c
    · simp only [if_pos h0]
      by_cases hf : fails c
      · simp [hf, tickCh]
      · simp only [hf, Bool.false_eq_true, if_neg, not_false_iff]
        exact ih _
    · simp only [if_neg h0]
      exact ih s

/-- Without failures the tick loop never aborts. -/
lemma tickChannels_no_abort :
    ∀ (l : List Int) (s : State),
      (tickChannels (fun _ => false) s l).2.2 = false := by
  intro l
  induction l with
  | nil => intro s; rfl
  | cons c rest ih =>
    intro s
    unfold tickChannels
    by_cases h0 : 0 < s.stepsLeft c
    · simp only [if_pos h0, Bool.false_eq_true, if_neg, not_false_iff]
      exact ih _
    · simp only [if_neg h0]
      exact ih s

/-- Pointwise effect of a failure-free tick: an in-motion visited channel
advances by its delta and loses one step; every other channel is
unchanged. Requires a duplicate-free channel list. -/
lemma tickChannels_point :
    ∀ (l : List Int), l.Nodup → ∀ (s : State) (ch : Int),
      (tickChannels (fun _ => false) s l).1.current ch =
        (if ch ∈ l ∧ 0 < s.stepsLeft ch then s.current ch + s.delta ch
         else s.current ch) ∧
      (tickChannels (fun _ => false) s l).1.stepsLeft ch =
        (if ch ∈ l ∧ 0 < s.stepsLeft ch then s.stepsLeft ch - 1
         else s.stepsLeft ch) := by
  intro l
  induction l with
  | nil =>
    intro _ s ch
    simp [tickChannels]
  | cons c rest ih =>
    intro hnd s ch
    have hc : c ∉ rest := (List.nodup_cons.mp hnd).1
    have hr : rest.Nodup := (List.nodup_cons.mp hnd).2
    unfold tickChannels
    by_cases h0 : 0 < s.stepsLeft c
    · simp only [if_pos h0, Bool.false_eq_true, if_neg, not_false_iff]
      obtain ⟨h1, h2⟩ := ih hr (tickCh s c) ch
      rw [h1, h2]
      by_cases hch : ch = c
      · subst hch
        have hni : ¬(ch ∈ rest ∧ 0 < (tickCh s ch).stepsLeft ch) :=
          fun hh => hc hh.1
        rw [if_neg hni, if_neg hni]
        have hm : ch ∈ ch :: rest := List.mem_cons_self ch rest
        rw [if_pos ⟨hm, h0⟩, if_pos ⟨hm, h0⟩]
        constructor
        · simp [tickCh]
        · simp [tickCh]
      · have e1 : (tickCh s c).current ch = s.current ch := by
          simp [tickCh, hch]
        have e2 : (tickCh s c).stepsLeft ch = s.stepsLeft ch := by
          simp [tickCh, hch]
        have e3 : (tickCh s c).delta ch = s.delta ch := rfl
        have hmem : (ch ∈ c :: rest) ↔ (ch ∈ rest) := by
          simp [List.mem_cons, hch]
        rw [e1, e2, e3]
        constructor
        · by_cases hin : ch ∈ rest ∧ 0 < s.stepsLeft ch
          · rw [if_pos hin, if_pos ⟨hmem.mpr hin.1, hin.2⟩]
          · rw [if_neg hin, if_neg (fun hh => hin ⟨hmem.mp hh.1, hh.2⟩)]
        · by_cases hin : ch ∈ rest ∧ 0 < s.stepsLeft ch
          · rw [if_pos hin, if_pos ⟨hmem.mpr hin.1, hin.2⟩]
          · rw [if_neg hin, if_neg (fun hh => hin ⟨hmem.mp hh.1, hh.2⟩)]
    · simp only [if_neg h0]
      obtain ⟨h1, h2⟩ := ih hr s ch
      rw [h1, h2]
      by_cases hch : ch = c
      · subst hch
        have hno : ¬(0 < s.stepsLeft ch) := h0
        simp [hno]
      · have hmem : (ch ∈ c :: rest) ↔ (ch ∈ rest) := by
          simp [List.mem_cons, hch]
        constructor
        · by_cases hin : ch ∈ rest ∧ 0 < s.stepsLeft ch
          · rw [if_pos hin, if_pos ⟨hmem.mpr hin.1, hin.2⟩]
          · rw [if_neg hin, if_neg (fun hh => hin ⟨hmem.mp hh.1, hh.2⟩)]
        · by_cases hin : ch ∈ rest ∧ 0 < s.stepsLeft ch
          · rw [if_pos hin, if_pos ⟨hmem.mpr hin.1, hin.2⟩]
          · rw [if_neg hin, if_neg (fun hh => hin ⟨hmem.mp hh.1, hh.2⟩)]

lemma tickOk_channels (s : State) : (tickOk s).channels = s.channels :=
  tickChannels_channels _ _ _

lemma tickOk_limits (s : State) : (tickOk s).limits = s.limits :=
  tickChannels_limits _ _ _

lemma tickOk_tick (s : State) : (tickOk s).tick = s.tick :=
  tickChannels_tick _ _ _

lemma tickOk_target (s : State) : (tickOk s).target = s.target :=
  tickChannels_target _ _ _

lemma tickOk_delta (s : State) : (tickOk s).delta = s.delta :=
  tickChannels_delta _ _ _

lemma tickOk_current (s : State) (ch : Int) (hnd : s.channels.Nodup) :
    (tickOk s).current ch =
      (if ch ∈ s.channels ∧ 0 < s.stepsLeft ch then s.current ch + s.delta ch
       else s.current ch) :=
  (tickChannels_point s.channels hnd s ch).1

lemma tickOk_stepsLeft (s : State) (ch : Int) (hnd : s.channels.Nodup) :
    (tickOk s).stepsLeft ch =
      (if ch ∈ s.channels ∧ 0 < s.stepsLeft ch then s.stepsLeft ch - 1
       else s.stepsLeft ch) :=
  (tickChannels_point s.channels hnd s ch).2

/-- An in-motion channel's driver write happens during a failure-free
tick, carrying the freshly advanced angle. -/
lemma tickChannels_writes :
    ∀ (l : List Int) (s : State) (ch : Int), l.Nodup → ch ∈ l →
      0 < s.stepsLeft ch →
      (ch, s.current ch + s.delta ch) ∈
        (tickChannels (fun _ => false) s l).2.1 := by
  intro l
  induction l with
  | nil => intro s ch _ hm; cases hm
  | cons c rest ih =>
    intro s ch hnd hm h0
    have hc : c ∉ rest := (List.nodup_cons.mp hnd).1
    have hr : rest.Nodup := (List.nodup_cons.mp hnd).2
    unfold tickChannels
    by_cases hch : ch = c
    · subst hch
      simp only [if_pos h0, Bool.false_eq_true, if_neg, not_false_iff]
      exact List.mem_cons_self _ _
    · have hrest : ch ∈ rest := by
        rcases List.mem_cons.mp hm with h | h
        · exact absurd h hch
        · exact h
      by_cases h0c : 0 < s.stepsLeft c
      · simp only [if_pos h0c, Bool.false_eq_true, if_neg, not_false_iff]
        have e1 : (tickCh s c).current ch = s.current ch := by
          simp [tickCh, hch]
        have e2 : (tickCh s c).delta ch = s.delta ch := rfl
        have e3 : 0 < (tickCh s c).stepsLeft ch := by
          simpa [tickCh, hch] using h0
        have := ih (tickCh s c) ch hr hrest e3
        rw [e1, e2] at this
        exact List.mem_cons_of_mem _ this
      · simp only [if_neg h0c]
        exact ih s ch hr hrest h0

/-- When the first failing in-motion channel is reached, its own state
mutation sticks, no later channel is processed, and the abort flag is
raised. -/
lemma tickChannels_abort (fails : Int → Bool) (ch : Int) (l2 : List Int) :
    ∀ (l1 : List Int) (s : State), (l1 ++ ch :: l2).Nodup →
      (∀ c ∈ l1, fails c = false) → fails ch = true → 0 < s.stepsLeft ch →
      (tickChannels fails s (l1 ++ ch :: l2)).2.2 = true ∧
      (tickChannels fails s (l1 ++ ch :: l2)).1.current ch =
        s.current ch + s.delta ch ∧
      (tickChannels fails s (l1 ++ ch :: l2)).1.stepsLeft ch =
        s.stepsLeft ch - 1 ∧
      (∀ c ∈ l2,
        (tickChannels fails s (l1 ++ ch :: l2)).1.current c = s.current c ∧
        (tickChannels fails s (l1 ++ ch :: l2)).1.stepsLeft c =
          s.stepsLeft c) := by
  intro l1
  induction l1 with
  | nil =>
    intro s hnd _ hf h0
    have hcl2 : ch ∉ l2 := (List.nodup_cons.mp hnd).1
    simp only [List.nil_append]
    unfold tickChannels
    simp only [if_pos h0, if_pos hf]
    refine ⟨by simp, by simp [tickCh], by simp [tickCh, h0], ?_⟩
    intro c hc
    have hne : c ≠ ch := fun hh => hcl2 (hh ▸ hc)
    exact ⟨by simp [tickCh, hne], by simp [tickCh, hne]⟩
  | cons c0 l1t ih =>
    intro s hnd hf1 hf h0
    have hc0 : c0 ∉ l1t ++ ch :: l2 := (List.nodup_cons.mp hnd).1
    have hndt : (l1t ++ ch :: l2).Nodup := (List.nodup_cons.mp hnd).2
    have hc0ch : c0 ≠ ch := by
      intro hh
      exact hc0 (by rw [hh]; exact List.mem_append_right _ (List.mem_cons_self _ _))
    have hc0l2 : c0 ∉ l2 := fun hh =>
      hc0 (List.mem_append_right _ (List.mem_cons_of_mem _ hh))
    have hf0 : fails c0 = false := hf1 c0 (List.mem_cons_self _ _)
    have hf1t : ∀ c ∈ l1t, fails c = false := fun c hc =>
      hf1 c (List.mem_cons_of_mem _ hc)
    simp only [List.cons_append]
    unfold tickChannels
    by_cases h0c : 0 < s.stepsLeft c0
    · simp only [if_pos h0c, hf0, Bool.false_eq_true, if_neg, not_false_iff]
      have e0 : 0 < (tickCh s c0).stepsLeft ch := by
        simpa [tickCh, (Ne.symm hc0ch : ch ≠ c0)] using h0
      obtain ⟨ha, hb, hcq, hd⟩ := ih (tickCh s c0) hndt hf1t hf e0
      refine ⟨ha, ?_, ?_, ?_⟩
      · rw [hb]; simp [tickCh, (Ne.symm hc0ch : ch ≠ c0)]
      · rw [hcq]; simp [tickCh, (Ne.symm hc0ch : ch ≠ c0)]
      · intro c hc
        have hne : c ≠ c0 := fun hh => hc0l2 (hh ▸ hc)
        obtain ⟨hd1, hd2⟩ := hd c hc
        exact ⟨by rw [hd1]; simp [tickCh, hne],
               by rw [hd2]; simp [tickCh, hne]⟩
    · simp only [if_neg h0c]
      exact ih s hndt hf1t hf h0

/-! ### Clamp lemmas -/

lemma clamp_mem (l : Limits) (h : l.min_angle ≤ l.max_angle) (a : ℚ) :
    l.min_angle ≤ l.clamp a ∧ l.clamp a ≤ l.max_angle :=
  ⟨le_max_left _ _, max_le h (min_le_left _ _)⟩

lemma clamp_of_mem (l : Limits) (a : ℚ) (h1 : l.min_angle ≤ a)
    (h2 : a ≤ l.max_angle) : l.clamp a = a := by
  unfold Limits.clamp
  rw [min_eq_right h2, max_eq_right h1]

/-! ### Well-formedness, the trajectory invariant, and reachability -/

/-- Structural well-formedness: a duplicate-free channel list and
ordered bounds on every active channel. -/
def Wf (s : State) : Prop :=
  s.channels.Nodup ∧
  ∀ ch ∈ s.channels, (s.limits ch).min_angle ≤ (s.limits ch).max_angle

/-- The trajectory invariant: current and target of every active channel
are within the channel's limits, and the remaining motion lands exactly
on the target. -/
def Inv (s : State) : Prop :=
  ∀ ch ∈ s.channels,
    (s.limits ch).min_angle ≤ s.current ch ∧
    s.current ch ≤ (s.limits ch).max_angle ∧
    (s.limits ch).min_angle ≤ s.target ch ∧
    s.target ch ≤ (s.limits ch).max_angle ∧
    s.current ch + (s.stepsLeft ch : ℚ) * s.delta ch = s.target ch

/-- States reachable from a well-formed construction (initial angles
within limits) through the public API and failure-free worker ticks. -/
inductive Reachable : State → Prop
  | init (channels : List Int) (limits : Int → Limits) (tickHz : ℚ)
      (reported : Int → Option ℚ) :
      channels.Nodup →
      (∀ ch ∈ channels, (limits ch).min_angle ≤ (limits ch).max_angle) →
      (∀ ch ∈ channels,
        (limits ch).min_angle ≤
          (initState channels limits tickHz reported).current ch ∧
        (initState channels limits tickHz reported).current ch ≤
          (limits ch).max_angle) →
      Reachable (initState channels limits tickHz reported)
  | move (s : State) (targets : List (Int × Option ℚ)) (d : ℚ) :
      Reachable s → Reachable (move s targets d)
  | center (s : State) (d : ℚ) :
      Reachable s → Reachable (center_all s d)
  | stopped (s : State) : Reachable s → Reachable (stop s)
  | tick (s : State) : Reachable s → Reachable (tickOk s)

lemma wf_move (s : State) (t : List (Int × Option ℚ)) (d : ℚ)
    (h : Wf s) : Wf (move s t d) := by
  obtain ⟨h1, h2⟩ := h
  unfold move
  constructor
  · rw [moveLoop_channels]; exact h1
  · intro ch hch
    rw [moveLoop_channels] at hch
    rw [moveLoop_limits]
    exact h2 ch hch

lemma wf_tick (s : State) (h : Wf s) : Wf (tickOk s) := by
  obtain ⟨h1, h2⟩ := h
  constructor
  · rw [tickOk_channels]; exact h1
  · intro ch hch
    rw [tickOk_channels] at hch
    rw [tickOk_limits]
    exact h2 ch hch

lemma reachable_wf (s : State) (h : Reachable s) : Wf s := by
  induction h with
  | init channels limits tickHz reported hnd hlim _ => exact ⟨hnd, hlim⟩
  | move s t d _ ih => exact wf_move s t d ih
  | center s d _ ih => exact wf_move s _ d ih
  | stopped s _ ih => exact ih
  | tick s _ ih => exact wf_tick s ih

lemma inv_move (s : State) (t : List (Int × Option ℚ)) (d : ℚ)
    (hwf : Wf s) (hinv : Inv s) : Inv (move s t d) := by
  intro ch hch
  unfold move at hch ⊢
  rw [moveLoop_channels] at hch
  rw [moveLoop_limits]
  have hcur : (moveLoop t (stepsFor s d) s s.channels).current ch =
      s.current ch := by rw [moveLoop_current]
  obtain ⟨i1, i2, i3, i4, i5⟩ := hinv ch hch
  cases hl : lookupT t ch with
  | none =>
    obtain ⟨e1, e2, e3⟩ := moveLoop_none t (stepsFor s d) ch hl s.channels s
    rw [hcur, e1, e2, e3]
    exact ⟨i1, i2, i3, i4, i5⟩
  | some a =>
    obtain ⟨e1, e2, e3⟩ := moveLoop_some t (stepsFor s d) ch a hl s.channels s hch
    rw [hcur, e1, e2, e3]
    have hlim := hwf.2 ch hch
    obtain ⟨c1, c2⟩ := clamp_mem (s.limits ch) hlim a
    refine ⟨i1, i2, c1, c2, ?_⟩
    have hk : ((stepsFor s d : ℚ)) ≠ 0 := by
      have := stepsFor_pos s d
      positivity
    field_simp

lemma inv_tick (s : State) (hwf : Wf s) (hinv : Inv s) : Inv (tickOk s) := by
  intro ch hch
  have hnd := hwf.1
  rw [tickOk_channels] at hch
  rw [tickOk_limits, tickOk_current s ch hnd, tickOk_stepsLeft s ch hnd,
    tickOk_target, tickOk_delta]
  obtain ⟨i1, i2, i3, i4, i5⟩ := hinv ch hch
  by_cases hm : ch ∈ s.channels ∧ 0 < s.stepsLeft ch
  · rw [if_pos hm, if_pos hm]
    have hn : 1 ≤ s.stepsLeft ch := hm.2
    have hcast : ((s.stepsLeft ch - 1 : Nat) : ℚ) = (s.stepsLeft ch : ℚ) - 1 := by
      push_cast [Nat.cast_sub hn]
      ring
    have hnq : (1 : ℚ) ≤ (s.stepsLeft ch : ℚ) := by exact_mod_cast hn
    rcases le_or_lt 0 (s.delta ch) with hd | hd
    · have hstep : s.current ch + s.delta ch ≤ s.target ch := by
        nlinarith
      refine ⟨by linarith, by linarith, i3, i4, ?_⟩
      rw [hcast]; ring_nf; linarith [i5]
    · have hstep : s.target ch ≤ s.current ch + s.delta ch := by
        nlinarith
      refine ⟨by linarith, by linarith, i3, i4, ?_⟩
      rw [hcast]; ring_nf; linarith [i5]
  · rw [if_neg hm, if_neg hm]
    exact ⟨i1, i2, i3, i4, i5⟩

lemma inv_init (channels : List Int) (limits : Int → Limits) (tickHz : ℚ)
    (reported : Int → Option ℚ)
    (hrange : ∀ ch ∈ channels,
      (limits ch).min_angle ≤
        (initState channels limits tickHz reported).current ch ∧
      (initState channels limits tickHz reported).current ch ≤
        (limits ch).max_angle) :
    Inv (initState channels limits tickHz reported) := by
  intro ch hch
  obtain ⟨h1, h2⟩ := hrange ch hch
  exact ⟨h1, h2, h1, h2, by simp [initState]⟩

lemma reachable_inv (s : State) (h : Reachable s) : Inv s := by
  induction h with
  | init channels limits tickHz reported hnd hlim hrange =>
    exact inv_init channels limits tickHz reported hrange
  | move s t d hr ih => exact inv_move s t d (reachable_wf s hr) ih
  | center s d hr ih => exact inv_move s _ d (reachable_wf s hr) ih
  | stopped s _ ih => exact ih
  | tick s hr ih => exact inv_tick s (reachable_wf s hr) ih

/-- States reachable from any construction at all (only a duplicate-free
channel list is assumed) through the public API and failure-free ticks. -/
inductive ReachableRaw : State → Prop
  | init (channels : List Int) (limits : Int → Limits) (tickHz : ℚ)
      (reported : Int → Option ℚ) :
      channels.Nodup →
      ReachableRaw (initState channels limits tickHz reported)
  | move (s : State) (targets : List (Int × Option ℚ)) (d : ℚ) :
      ReachableRaw s → ReachableRaw (move s targets d)
  | center (s : State) (d : ℚ) :
      ReachableRaw s → ReachableRaw (center_all s d)
  | stopped (s : State) : ReachableRaw s → ReachableRaw (stop s)
  | tick (s : State) : ReachableRaw s → ReachableRaw (tickOk s)

/-- The completion invariant on its own: the remaining motion of every
active channel lands exactly on its target. -/
def SumInv (s : State) : Prop :=
  ∀ ch ∈ s.channels,
    s.current ch + (s.stepsLeft ch : ℚ) * s.delta ch = s.target ch

lemma raw_nodup (s : State) (h : ReachableRaw s) : s.channels.Nodup := by
  induction h with
  | init channels limits tickHz reported hnd => exact hnd
  | move s t d _ ih =>
    show (moveLoop t (stepsFor s d) s s.channels).channels.Nodup
    rw [moveLoop_channels]
    exact ih
  | center s d _ ih =>
    show (moveLoop _ _ s s.channels).channels.Nodup
    rw [moveLoop_channels]
    exact ih
  | stopped s _ ih => exact ih
  | tick s _ ih =>
    rw [tickOk_channels]
    exact ih

lemma sumInv_move (s : State) (t : List (Int × Option ℚ)) (d : ℚ)
    (hsum : SumInv s) : SumInv (move s t d) := by
  intro ch hch
  unfold move at hch ⊢
  rw [moveLoop_channels] at hch
  have hcur : (moveLoop t (stepsFor s d) s s.channels).current ch =
      s.current ch := by rw [moveLoop_current]
  cases hl : lookupT t ch with
  | none =>
    obtain ⟨e1, e2, e3⟩ := moveLoop_none t (stepsFor s d) ch hl s.channels s
    rw [hcur, e1, e2, e3]
    exact hsum ch hch
  | some a =>
    obtain ⟨e1, e2, e3⟩ :=
      moveLoop_some t (stepsFor s d) ch a hl s.channels s hch
    rw [hcur, e1, e2, e3]
    have hk : ((stepsFor s d : Nat) : ℚ) ≠ 0 := by
      have := stepsFor_pos s d
      positivity
    field_simp

lemma sumInv_tick (s : State) (hnd : s.channels.Nodup) (hsum : SumInv s) :
    SumInv (tickOk s) := by
  intro ch hch
  rw [tickOk_channels] at hch
  rw [tickOk_current s ch hnd, tickOk_stepsLeft s ch hnd, tickOk_target,
    tickOk_delta]
  have i5 := hsum ch hch
  by_cases hm : ch ∈ s.channels ∧ 0 < s.stepsLeft ch
  · rw [if_pos hm, if_pos hm]
    have hn : 1 ≤ s.stepsLeft ch := hm.2
    have hcast : ((s.stepsLeft ch - 1 : Nat) : ℚ) = (s.stepsLeft ch : ℚ) - 1 := by
      push_cast [Nat.cast_sub hn]
      ring
    rw [hcast]
    ring_nf
    ring_nf at i5
    linarith [i5]
  · rw [if_neg hm, if_neg hm]
    exact i5

lemma raw_sumInv (s : State) (h : ReachableRaw s) : SumInv s := by
  induction h with
  | init channels limits tickHz reported hnd =>
    intro ch hch
    simp [initState]
  | move s t d _ ih => exact sumInv_move s t d ih
  | center s d hr ih => exact sumInv_move s _ d ih
  | stopped s _ ih => exact ih
  | tick s hr ih => exact sumInv_tick s (raw_nodup s hr) ih

/-! ### Iterated ticks -/

lemma tickIter_frame (k : Nat) (s : State) :
    (tickOk^[k] s).channels = s.channels ∧
    (tickOk^[k] s).limits = s.limits ∧
    (tickOk^[k] s).target = s.target ∧
    (tickOk^[k] s).delta = s.delta := by
  induction k generalizing s with
  | zero => exact ⟨rfl, rfl, rfl, rfl⟩
  | succ k ih =>
    rw [Function.iterate_succ_apply]
    obtain ⟨a, b, c, d⟩ := ih (tickOk s)
    exact ⟨a.trans (tickOk_channels s), b.trans (tickOk_limits s),
      c.trans (tickOk_target s), d.trans (tickOk_delta s)⟩

/-- Closed form of iterated failure-free ticks on one channel while its
trajectory is still running: linear advance, step count decreases. -/
lemma tickIter_point (ch : Int) (k : Nat) :
    ∀ (s : State), s.channels.Nodup → ch ∈ s.channels →
      k ≤ s.stepsLeft ch →
      (tickOk^[k] s).current ch = s.current ch + (k : ℚ) * s.delta ch ∧
      (tickOk^[k] s).stepsLeft ch = s.stepsLeft ch - k := by
  induction k with
  | zero => intro s _ _ _; simp
  | succ k ih =>
    intro s hnd hch hk
    rw [Function.iterate_succ_apply]
    have h0 : 0 < s.stepsLeft ch := lt_of_lt_of_le (Nat.succ_pos k) hk
    have hnd2 : (tickOk s).channels.Nodup := by
      rw [tickOk_channels]; exact hnd
    have hch2 : ch ∈ (tickOk s).channels := by
      rw [tickOk_channels]; exact hch
    have hsl : (tickOk s).stepsLeft ch = s.stepsLeft ch - 1 := by
      rw [tickOk_stepsLeft s ch hnd, if_pos ⟨hch, h0⟩]
    have hcur : (tickOk s).current ch = s.current ch + s.delta ch := by
      rw [tickOk_current s ch hnd, if_pos ⟨hch, h0⟩]
    have hdel : (tickOk s).delta ch = s.delta ch := by rw [tickOk_delta]
    have hk2 : k ≤ (tickOk s).stepsLeft ch := by omega
    obtain ⟨ha, hb⟩ := ih (tickOk s) hnd2 hch2 hk2
    constructor
    · rw [ha, hcur, hdel]
      push_cast
      ring
    · rw [hb, hsl]
      omega

/-! ### Further helpers -/

/-- The move loop treats the stop flag as inert baggage. -/
lemma moveLoop_stop (t : List (Int × Option ℚ)) (k : Nat) :
    ∀ (l : List Int) (s : State),
      moveLoop t k (stop s) l = stop (moveLoop t k s l) := by
  intro l
  induction l with
  | nil => intro s; rfl
  | cons c rest ih =>
    intro s
    unfold moveLoop
    cases lookupT t c with
    | none => exact ih s
    | some a =>
      show moveLoop t k (moveCh k (stop s) c a) rest =
        stop (moveLoop t k (moveCh k s c a) rest)
      have e : moveCh k (stop s) c a = stop (moveCh k s c a) := rfl
      rw [e]
      exact ih (moveCh k s c a)

/-- A `move` issued after `stop` is carried out exactly as before the
stop; only the stop flag stays set. -/
lemma move_stop (s : State) (t : List (Int × Option ℚ)) (d : ℚ) :
    move (stop s) t d = stop (move s t d) :=
  moveLoop_stop t (stepsFor s d) s.channels s

/-- Looking up a channel in a dict built by mapping over a channel list. -/
lemma lookupT_map (g : Int → Option ℚ) :
    ∀ (l : List Int) (ch : Int), ch ∈ l →
      lookupT (l.map fun c => (c, g c)) ch = g ch := by
  intro l
  induction l with
  | nil => intro ch h; cases h
  | cons c rest ih =>
    intro ch hm
    by_cases hc : c = ch
    · subst hc
      unfold lookupT
      simp [List.lookup]
    · have hrest : ch ∈ rest := by
        rcases List.mem_cons.mp hm with h | h
        · exact absurd h.symm hc
        · exact h
      have hbeq : (ch == c) = false :=
        beq_eq_false_iff_ne.mpr fun h => hc h.symm
      have := ih ch hrest
      unfold lookupT at this ⊢
      simpa [List.lookup, hbeq] using this

/-- A concrete controller: the default channels, limits and 50 Hz tick,
with the hardware reporting no angle anywhere. -/
def ctl50 : State := initState [0, 1, 2, 3] DEFAULT_LIMITS 50 (fun _ => none)

/-- A concrete controller ticking at 4 Hz (tick interval 1/4 s). -/
def ctl4 : State := initState [0, 1, 2, 3] DEFAULT_LIMITS 4 (fun _ => none)

/-! ### The claims -/

/-- C5: for every angle and every limit with ordered bounds, `clamp`
stays within the bounds, is the identity on in-range angles, and maps
out-of-range angles to the nearer bound; it is a total function. -/
theorem C5_clamp_spec (l : Limits) (a : ℚ)
    (h : l.min_angle ≤ l.max_angle) :
    (l.min_angle ≤ l.clamp a ∧ l.clamp a ≤ l.max_angle) ∧
    (l.min_angle ≤ a → a ≤ l.max_angle → l.clamp a = a) ∧
    (a < l.min_angle → l.clamp a = l.min_angle) ∧
    (l.max_angle < a → l.clamp a = l.max_angle) := by
  refine ⟨clamp_mem l h a, fun h1 h2 => clamp_of_mem l a h1 h2, ?_, ?_⟩
  · intro ha
    unfold Limits.clamp
    rw [min_eq_right (le_of_lt (lt_of_lt_of_le ha h)), max_eq_left (le_of_lt ha)]
  · intro ha
    unfold Limits.clamp
    rw [min_eq_left (le_of_lt ha), max_eq_right h]

/-- Witness for C5 at the bob channel's limits and the out-of-range
angle 100. -/
theorem C5_witness :
    ((30 : ℚ) ≤ Limits.clamp ⟨30, 80, 55, "bob"⟩ 100 ∧
      Limits.clamp ⟨30, 80, 55, "bob"⟩ 100 ≤ 80) ∧
    Limits.clamp ⟨30, 80, 55, "bob"⟩ 100 = 80 :=
  ⟨(C5_clamp_spec ⟨30, 80, 55, "bob"⟩ 100 (by norm_num)).1,
   (C5_clamp_spec ⟨30, 80, 55, "bob"⟩ 100 (by norm_num)).2.2.2 (by norm_num)⟩

/-- C3 (amended): the installed step count is
`max(1, int(duration / tick))` — Python `int` truncation, not `round` —
after non-positive durations are replaced by one tick interval; for
`duration <= 0` the count is exactly 1. -/
theorem C3_step_count (s : State) (targets : List (Int × Option ℚ))
    (d : ℚ) (ch : Int) (a : ℚ) (hch : ch ∈ s.channels)
    (hl : lookupT targets ch = some a) :
    (move s targets d).stepsLeft ch =
      (max 1 (pyInt ((if d ≤ 0 then s.tick else d) / s.tick))).toNat ∧
    (d ≤ 0 → (move s targets d).stepsLeft ch = 1) := by
  have e3 : (move s targets d).stepsLeft ch = stepsFor s d :=
    (moveLoop_some targets (stepsFor s d) ch a hl s.channels s hch).2.2
  refine ⟨e3, ?_⟩
  intro hd
  rw [e3]
  unfold stepsFor
  rw [if_pos hd]
  show (max 1 (pyInt (s.tick / s.tick))).toNat = 1
  by_cases ht : s.tick = 0
  · rw [ht]
    norm_num [pyInt]
  · rw [div_self ht]
    norm_num [pyInt]

/-- Counterexample to C3 as stated: at tick interval 1/4 s and duration
3/8 s the code installs `max(1, int(1.5)) = 1` step, while
`max(1, round(1.5)) = 2`. -/
theorem C3_counterexample :
    (move ctl4 [(0, some 200)] (3 / 8)).stepsLeft 0 = 1 ∧
    (max 1 (round ((3 / 8 : ℚ) / ctl4.tick))).toNat = 2 := by
  have htick : ctl4.tick = 1 / 4 := by norm_num [ctl4, initState]
  constructor
  · have e3 : (move ctl4 [(0, some 200)] (3 / 8)).stepsLeft 0 =
        stepsFor ctl4 (3 / 8) :=
      (moveLoop_some [(0, some 200)] (stepsFor ctl4 (3 / 8)) 0 200
        (by decide) ctl4.channels ctl4 (by decide)).2.2
    rw [e3]
    unfold stepsFor
    rw [htick]
    norm_num [pyInt]
  · rw [htick]
    norm_num [round_eq]
    decide

/-- Witness for C3 at duration 0: the step count is exactly 1. -/
theorem C3_witness : (move ctl50 [(0, some 200)] 0).stepsLeft 0 = 1 :=
  (C3_step_count ctl50 [(0, some 200)] 0 0 200 (by decide) (by decide)).2
    le_rfl

/-- C4 (amended): a key of `targets` outside the configured channel set
is silently ignored — no error is raised and no state of that key (or of
anything else on its account) changes — while configured channels named
with a non-null angle in the same call are still applied normally. -/
theorem C4_unknown_keys_ignored :
    (∀ (s : State) (targets : List (Int × Option ℚ)) (d : ℚ) (k : Int),
      k ∉ s.channels →
      (move s targets d).current k = s.current k ∧
      (move s targets d).target k = s.target k ∧
      (move s targets d).delta k = s.delta k ∧
      (move s targets d).stepsLeft k = s.stepsLeft k) ∧
    (∀ (s : State) (targets : List (Int × Option ℚ)) (d : ℚ) (ch : Int)
      (a : ℚ), ch ∈ s.channels → lookupT targets ch = some a →
      (move s targets d).target ch = (s.limits ch).clamp a ∧
      (move s targets d).stepsLeft ch = stepsFor s d) := by
  constructor
  · intro s targets d k hk
    obtain ⟨e1, e2, e3⟩ :=
      moveLoop_not_mem targets (stepsFor s d) k s.channels s hk
    exact ⟨by rw [show (move s targets d).current = s.current from
      moveLoop_current targets (stepsFor s d) s.channels s], e1, e2, e3⟩
  · intro s targets d ch a hch hl
    obtain ⟨e1, _, e3⟩ :=
      moveLoop_some targets (stepsFor s d) ch a hl s.channels s hch
    exact ⟨e1, e3⟩

/-- Counterexample to C4 as stated: a `move` naming unconfigured channel
9 completes without error and retargets the configured channel 1 in the
same call, so there is neither rejection nor absence of state change. -/
theorem C4_counterexample :
    (9 : Int) ∉ ctl50.channels ∧
    (move ctl50 [(9, some 0), (1, some 120)] 1).target 1 = 120 ∧
    ctl50.target 1 = 90 := by
  refine ⟨by decide, by decide, by decide⟩

/-- Witness for C4: channel 9 keeps all its state, channel 1 is applied. -/
theorem C4_witness :
    ((move ctl50 [(9, some 0), (1, some 120)] 1).current 9 =
        ctl50.current 9 ∧
      (move ctl50 [(9, some 0), (1, some 120)] 1).target 9 =
        ctl50.target 9 ∧
      (move ctl50 [(9, some 0), (1, some 120)] 1).delta 9 =
        ctl50.delta 9 ∧
      (move ctl50 [(9, some 0), (1, some 120)] 1).stepsLeft 9 =
        ctl50.stepsLeft 9) ∧
    (move ctl50 [(9, some 0), (1, some 120)] 1).target 1 =
        (ctl50.limits 1).clamp 120 ∧
    (move ctl50 [(9, some 0), (1, some 120)] 1).stepsLeft 1 =
        stepsFor ctl50 1 :=
  ⟨C4_unknown_keys_ignored.1 ctl50 [(9, some 0), (1, some 120)] 1 9
      (by decide),
   C4_unknown_keys_ignored.2 ctl50 [(9, some 0), (1, some 120)] 1 1 120
      (by decide) (by decide)⟩

/-- C6: a configured channel that is absent from `targets` or mapped to
null keeps its whole trajectory state across the `move` call. -/
theorem C6_absent_or_null_untouched (s : State)
    (targets : List (Int × Option ℚ)) (d : ℚ) (ch : Int)
    (_hch : ch ∈ s.channels) (hl : lookupT targets ch = none) :
    (move s targets d).current ch = s.current ch ∧
    (move s targets d).target ch = s.target ch ∧
    (move s targets d).delta ch = s.delta ch ∧
    (move s targets d).stepsLeft ch = s.stepsLeft ch := by
  obtain ⟨e1, e2, e3⟩ := moveLoop_none targets (stepsFor s d) ch hl s.channels s
  exact ⟨by rw [show (move s targets d).current = s.current from
    moveLoop_current targets (stepsFor s d) s.channels s], e1, e2, e3⟩

/-- Witness for C6: channel 1 mapped to null keeps its state. -/
theorem C6_witness :
    (move ctl50 [(0, some 80), (1, none)] (1 / 2)).current 1 =
      ctl50.current 1 ∧
    (move ctl50 [(0, some 80), (1, none)] (1 / 2)).target 1 =
      ctl50.target 1 ∧
    (move ctl50 [(0, some 80), (1, none)] (1 / 2)).delta 1 =
      ctl50.delta 1 ∧
    (move ctl50 [(0, some 80), (1, none)] (1 / 2)).stepsLeft 1 =
      ctl50.stepsLeft 1 :=
  C6_absent_or_null_untouched ctl50 [(0, some 80), (1, none)] (1 / 2) 1
    (by decide) (by decide)

/-- C7: `center_all(duration)` is exactly `move` of every configured
channel to its limit's center, and the dict it builds indeed maps every
configured channel to that center. -/
theorem C7_center_all_refines_move :
    (∀ (s : State) (d : ℚ),
      center_all s d =
        move s (s.channels.map fun ch => (ch, some ((s.limits ch).center))) d) ∧
    (∀ (s : State) (ch : Int), ch ∈ s.channels →
      lookupT (s.channels.map fun c => (c, some ((s.limits c).center))) ch =
        some ((s.limits ch).center)) :=
  ⟨fun _ _ => rfl,
   fun s ch hch => lookupT_map (fun c => some ((s.limits c).center))
     s.channels ch hch⟩

/-- Witness for C7: the dict built by `center_all` on the default
controller maps channel 2 to its center. -/
theorem C7_witness :
    lookupT (ctl50.channels.map fun c => (c, some ((ctl50.limits c).center)))
      2 = some ((ctl50.limits 2).center) :=
  C7_center_all_refines_move.2 ctl50 2 (by decide)

/-- C9 (amended): no public operation is rejected after `stop()`:
`move` and `center_all` perform exactly the state change they would have
performed before the stop (the stop flag simply stays set), and
`get_angles` returns the same snapshot as before. -/
theorem C9_ops_after_stop :
    (∀ (s : State) (targets : List (Int × Option ℚ)) (d : ℚ),
      move (stop s) targets d = stop (move s targets d)) ∧
    (∀ (s : State) (d : ℚ), center_all (stop s) d = stop (center_all s d)) ∧
    (∀ s : State, get_angles (stop s) = get_angles s) ∧
    (∀ s : State, (stop s).stopped = true) :=
  ⟨move_stop,
   fun s d => move_stop s
     (s.channels.map fun ch => (ch, some ((s.limits ch).center))) d,
   fun _ => rfl, fun _ => rfl⟩

/-- Counterexample to C9 as stated: after `stop`, a `move` call is not
rejected — it goes through and retargets channel 1. -/
theorem C9_counterexample :
    (stop ctl50).stopped = true ∧
    (move (stop ctl50) [(1, some 120)] 1).target 1 = 120 ∧
    ctl50.target 1 = 90 := by
  refine ⟨rfl, by decide, by decide⟩

/-- C1 (amended): in every state reachable from a construction whose
initial angles lie within the (ordered) limits, the current angle of
every active channel stays within its limits — after construction, after
every `move`/`center_all`/`stop`, and after every worker tick, mid-motion
included. -/
theorem C1_current_in_range (s : State) (h : Reachable s) :
    ∀ ch ∈ s.channels,
      (s.limits ch).min_angle ≤ s.current ch ∧
      s.current ch ≤ (s.limits ch).max_angle :=
  fun ch hch => ⟨(reachable_inv s h ch hch).1, (reachable_inv s h ch hch).2.1⟩

/-- Counterexample to C1 as stated: construction does not clamp the
hardware-reported angle, so a controller whose channel 0 (limits 30–80)
reports 100 starts with `current = 100`, outside the limits. -/
theorem C1_counterexample :
    (initState [0] DEFAULT_LIMITS 50 (fun _ => some 100)).current 0 = 100 ∧
    ((initState [0] DEFAULT_LIMITS 50 (fun _ => some 100)).limits 0).max_angle
      = 80 ∧
    ¬((initState [0] DEFAULT_LIMITS 50 (fun _ => some 100)).current 0 ≤
      ((initState [0] DEFAULT_LIMITS 50
        (fun _ => some 100)).limits 0).max_angle) := by
  refine ⟨by decide, by decide, by decide⟩

/-- Witness for C1: after moving channel 0 toward 200 and one tick, the
current angle is still within channel 0's limits. -/
theorem C1_witness :
    ((tickOk (move ctl50 [(0, some 200)] 1)).limits 0).min_angle ≤
      (tickOk (move ctl50 [(0, some 200)] 1)).current 0 ∧
    (tickOk (move ctl50 [(0, some 200)] 1)).current 0 ≤
      ((tickOk (move ctl50 [(0, some 200)] 1)).limits 0).max_angle := by
  have hr : Reachable (tickOk (move ctl50 [(0, some 200)] 1)) :=
    Reachable.tick _ (Reachable.move _ _ _
      (Reachable.init [0, 1, 2, 3] DEFAULT_LIMITS 50 (fun _ => none)
        (by decide) (by decide) (by decide)))
  have hmem : (0 : Int) ∈ (tickOk (move ctl50 [(0, some 200)] 1)).channels := by
    rw [tickOk_channels]
    have hc : (move ctl50 [(0, some 200)] 1).channels = ctl50.channels :=
      moveLoop_channels [(0, some 200)] (stepsFor ctl50 1) ctl50.channels ctl50
    rw [hc]
    decide
  exact C1_current_in_range _ hr 0 hmem

/-- C2: in every reachable state a channel with no steps remaining sits
exactly on its target; and a `move` on a channel followed by exactly its
installed number of failure-free ticks (no intervening `move`) leaves the
channel idle at exactly the clamped requested angle. -/
theorem C2_exact_arrival :
    (∀ s : State, ReachableRaw s → ∀ ch ∈ s.channels,
      s.stepsLeft ch = 0 → s.current ch = s.target ch) ∧
    (∀ (s : State) (targets : List (Int × Option ℚ)) (d : ℚ) (ch : Int)
      (a : ℚ), s.channels.Nodup → ch ∈ s.channels →
      lookupT targets ch = some a →
      (tickOk^[(move s targets d).stepsLeft ch]
          (move s targets d)).current ch = (s.limits ch).clamp a ∧
      (tickOk^[(move s targets d).stepsLeft ch]
          (move s targets d)).stepsLeft ch = 0) := by
  constructor
  · intro s hr ch hch h0
    have i5 := raw_sumInv s hr ch hch
    rw [h0] at i5
    simpa using i5
  · intro s targets d ch a hnd hch hl
    obtain ⟨e1, e2, e3⟩ :=
      moveLoop_some targets (stepsFor s d) ch a hl s.channels s hch
    have e3' : (move s targets d).stepsLeft ch = stepsFor s d := e3
    have e2' : (move s targets d).delta ch =
        ((s.limits ch).clamp a - s.current ch) / ((stepsFor s d : Nat) : ℚ) :=
      e2
    have ecur : (move s targets d).current ch = s.current ch := by
      have h := moveLoop_current targets (stepsFor s d) s.channels s
      exact congrFun h ch
    have hcm : (move s targets d).channels = s.channels :=
      moveLoop_channels targets (stepsFor s d) s.channels s
    have hnd2 : (move s targets d).channels.Nodup := by rw [hcm]; exact hnd
    have hch2 : ch ∈ (move s targets d).channels := by rw [hcm]; exact hch
    have hle : stepsFor s d ≤ (move s targets d).stepsLeft ch := by
      rw [e3']
    obtain ⟨p1, p2⟩ :=
      tickIter_point ch (stepsFor s d) (move s targets d) hnd2 hch2 hle
    constructor
    · rw [e3', p1, ecur, e2']
      have hk : ((stepsFor s d : Nat) : ℚ) ≠ 0 := by
        have := stepsFor_pos s d
        positivity
      field_simp
    · rw [e3', p2, e3']
      omega

/-- Witness for C2: the freshly built controller is idle on target, and
moving channel 0 to 200 over 1 s then waiting the installed number of
ticks lands exactly on the clamp of 200. -/
theorem C2_witness :
    ctl50.current 0 = ctl50.target 0 ∧
    ((tickOk^[(move ctl50 [(0, some 200)] 1).stepsLeft 0]
        (move ctl50 [(0, some 200)] 1)).current 0 =
      (ctl50.limits 0).clamp 200 ∧
     (tickOk^[(move ctl50 [(0, some 200)] 1).stepsLeft 0]
        (move ctl50 [(0, some 200)] 1)).stepsLeft 0 = 0) :=
  ⟨C2_exact_arrival.1 ctl50
      (ReachableRaw.init [0, 1, 2, 3] DEFAULT_LIMITS 50 (fun _ => none)
        (by decide)) 0 (by decide) (by decide),
   C2_exact_arrival.2 ctl50 [(0, some 200)] 1 0 200 (by decide) (by decide)
      (by decide)⟩

/-- C8 (amended): when the driver write of the first failing in-motion
channel raises, the exception escapes the tick loop — the failing
channel's own state update (made before the write) sticks, but the
channels after it in iteration order are not updated in that tick, and
the loop aborts instead of proceeding. -/
theorem C8_write_failure_aborts_tick (s : State) (fails : Int → Bool)
    (ch : Int) (l1 l2 : List Int)
    (hsplit : s.channels = l1 ++ ch :: l2)
    (hnd : s.channels.Nodup)
    (hok : ∀ c ∈ l1, fails c = false)
    (hfail : fails ch = true)
    (hmotion : 0 < s.stepsLeft ch) :
    (tickFail fails s).2.2 = true ∧
    (tickFail fails s).1.current ch = s.current ch + s.delta ch ∧
    (tickFail fails s).1.stepsLeft ch = s.stepsLeft ch - 1 ∧
    ∀ c ∈ l2,
      (tickFail fails s).1.current c = s.current c ∧
      (tickFail fails s).1.stepsLeft c = s.stepsLeft c := by
  unfold tickFail
  rw [hsplit]
  exact tickChannels_abort fails ch l2 l1 s (hsplit ▸ hnd) hok hfail hmotion

/-- Counterexample to C8 as stated: with channels 0 and 1 both in
motion and the write to channel 0 failing, the tick aborts and channel
1 is neither advanced nor decremented in that tick. -/
theorem C8_counterexample :
    (tickFail (fun c => c == 0)
        (move ctl50 [(0, some 80), (1, some 100)] (1 / 25))).2.2 = true ∧
    0 < (move ctl50 [(0, some 80), (1, some 100)] (1 / 25)).stepsLeft 1 ∧
    (tickFail (fun c => c == 0)
        (move ctl50 [(0, some 80), (1, some 100)] (1 / 25))).1.current 1 =
      (move ctl50 [(0, some 80), (1, some 100)] (1 / 25)).current 1 ∧
    (tickFail (fun c => c == 0)
        (move ctl50 [(0, some 80), (1, some 100)] (1 / 25))).1.stepsLeft 1 =
      (move ctl50 [(0, some 80), (1, some 100)] (1 / 25)).stepsLeft 1 := by
  have hc : (move ctl50 [(0, some 80), (1, some 100)] (1 / 25)).channels =
      ctl50.channels :=
    moveLoop_channels [(0, some 80), (1, some 100)]
      (stepsFor ctl50 (1 / 25)) ctl50.channels ctl50
  have e0 : (move ctl50 [(0, some 80), (1, some 100)] (1 / 25)).stepsLeft 0 =
      stepsFor ctl50 (1 / 25) :=
    (moveLoop_some [(0, some 80), (1, some 100)] (stepsFor ctl50 (1 / 25))
      0 80 (by decide) ctl50.channels ctl50 (by decide)).2.2
  have e1 : (move ctl50 [(0, some 80), (1, some 100)] (1 / 25)).stepsLeft 1 =
      stepsFor ctl50 (1 / 25) :=
    (moveLoop_some [(0, some 80), (1, some 100)] (stepsFor ctl50 (1 / 25))
      1 100 (by decide) ctl50.channels ctl50 (by decide)).2.2
  have habort := tickChannels_abort (fun c => c == 0) 0 [1, 2, 3] []
    (move ctl50 [(0, some 80), (1, some 100)] (1 / 25))
    (by rw [show ([] ++ 0 :: [1, 2, 3] : List Int) = ctl50.channels from rfl, ← hc]
        exact (hc ▸ (by decide : ctl50.channels.Nodup)))
    (by intro c hcm; cases hcm)
    rfl
    (by rw [e0]; exact stepsFor_pos ctl50 (1 / 25))
  have hteq : (tickFail (fun c => c == 0)
      (move ctl50 [(0, some 80), (1, some 100)] (1 / 25))) =
      tickChannels (fun c => c == 0)
        (move ctl50 [(0, some 80), (1, some 100)] (1 / 25))
        ([] ++ 0 :: [1, 2, 3]) := by
    unfold tickFail
    rw [hc]
    rfl
  rw [hteq]
  refine ⟨habort.1, ?_, (habort.2.2.2 1 (by decide)).1,
    (habort.2.2.2 1 (by decide)).2⟩
  rw [e1]
  exact stepsFor_pos ctl50 (1 / 25)

/-- Witness for C8: the abort theorem applied at the same concrete
failing tick. -/
theorem C8_witness :
    (tickFail (fun c => c == 0)
        (move ctl50 [(0, some 80), (1, some 100)] (1 / 25))).2.2 = true ∧
    (tickFail (fun c => c == 0)
        (move ctl50 [(0, some 80), (1, some 100)] (1 / 25))).1.current 2 =
      (move ctl50 [(0, some 80), (1, some 100)] (1 / 25)).current 2 ∧
    (tickFail (fun c => c == 0)
        (move ctl50 [(0, some 80), (1, some 100)] (1 / 25))).1.stepsLeft 2 =
      (move ctl50 [(0, some 80), (1, some 100)] (1 / 25)).stepsLeft 2 := by
  have hc : (move ctl50 [(0, some 80), (1, some 100)] (1 / 25)).channels =
      ctl50.channels :=
    moveLoop_channels [(0, some 80), (1, some 100)]
      (stepsFor ctl50 (1 / 25)) ctl50.channels ctl50
  have e0 : (move ctl50 [(0, some 80), (1, some 100)] (1 / 25)).stepsLeft 0 =
      stepsFor ctl50 (1 / 25) :=
    (moveLoop_some [(0, some 80), (1, some 100)] (stepsFor ctl50 (1 / 25))
      0 80 (by decide) ctl50.channels ctl50 (by decide)).2.2
  have h := C8_write_failure_aborts_tick
    (move ctl50 [(0, some 80), (1, some 100)] (1 / 25)) (fun c => c == 0)
    0 [] [1, 2, 3]
    (by rw [hc]; rfl)
    (by rw [hc]; decide)
    (by intro c hcm; cases hcm)
    rfl
    (by rw [e0]; exact stepsFor_pos ctl50 (1 / 25))
  exact ⟨h.1, (h.2.2.2 2 (by decide)).1, (h.2.2.2 2 (by decide)).2⟩

/-- C10: a `move` whose clamped target equals the channel's current
angle still installs an in-motion trajectory — delta 0 and a positive
step count — and the driver is written with the unchanged angle on each
of the installed ticks. -/
theorem C10_same_target_still_in_motion (s : State)
    (targets : List (Int × Option ℚ)) (d : ℚ) (ch : Int) (a : ℚ)
    (hnd : s.channels.Nodup) (hch : ch ∈ s.channels)
    (hl : lookupT targets ch = some a)
    (heq : (s.limits ch).clamp a = s.current ch) :
    (move s targets d).delta ch = 0 ∧
    (move s targets d).stepsLeft ch = stepsFor s d ∧
    0 < stepsFor s d ∧
    ∀ k, k < stepsFor s d →
      (ch, s.current ch) ∈ tickWrites (tickOk^[k] (move s targets d)) := by
  obtain ⟨e1, e2, e3⟩ :=
    moveLoop_some targets (stepsFor s d) ch a hl s.channels s hch
  have e2' : (move s targets d).delta ch =
      ((s.limits ch).clamp a - s.current ch) / ((stepsFor s d : Nat) : ℚ) := e2
  have e3' : (move s targets d).stepsLeft ch = stepsFor s d := e3
  have hdelta : (move s targets d).delta ch = 0 := by
    rw [e2', heq]
    simp
  have hcm : (move s targets d).channels = s.channels :=
    moveLoop_channels targets (stepsFor s d) s.channels s
  have ecur : (move s targets d).current ch = s.current ch :=
    congrFun (moveLoop_current targets (stepsFor s d) s.channels s) ch
  refine ⟨hdelta, e3', stepsFor_pos s d, ?_⟩
  intro k hk
  have hnd2 : (move s targets d).channels.Nodup := by rw [hcm]; exact hnd
  have hch2 : ch ∈ (move s targets d).channels := by rw [hcm]; exact hch
  have hkle : k ≤ (move s targets d).stepsLeft ch := by rw [e3']; omega
  obtain ⟨p1, p2⟩ := tickIter_point ch k (move s targets d) hnd2 hch2 hkle
  obtain ⟨f1, _, _, f4⟩ := tickIter_frame k (move s targets d)
  have hcur : (tickOk^[k] (move s targets d)).current ch = s.current ch := by
    rw [p1, ecur, hdelta]
    ring
  have hsl : 0 < (tickOk^[k] (move s targets d)).stepsLeft ch := by
    rw [p2, e3']
    omega
  have hndu : (tickOk^[k] (move s targets d)).channels.Nodup := by
    rw [f1, hcm]; exact hnd
  have hchu : ch ∈ (tickOk^[k] (move s targets d)).channels := by
    rw [f1, hcm]; exact hch
  have hw := tickChannels_writes (tickOk^[k] (move s targets d)).channels
    (tickOk^[k] (move s targets d)) ch hndu hchu hsl
  have hdu : (tickOk^[k] (move s targets d)).delta ch = 0 :=
    (congrFun f4 ch).trans hdelta
  rw [hcur, hdu, add_zero] at hw
  exact hw

/-- Witness for C10: moving channel 0 to its current angle 55 installs
delta 0 with steps remaining, and the first tick writes 55 again. -/
theorem C10_witness :
    (move ctl50 [(0, some 55)] (1 / 25)).delta 0 = 0 ∧
    ((0 : Int), ctl50.current 0) ∈
      tickWrites (tickOk^[1] (move ctl50 [(0, some 55)] (1 / 25))) := by
  have hs : stepsFor ctl50 (1 / 25) = 2 := by
    have htick : ctl50.tick = 1 / 50 := by norm_num [ctl50, initState]
    unfold stepsFor
    rw [htick]
    norm_num [pyInt]
    decide
  have h := C10_same_target_still_in_motion ctl50 [(0, some 55)] (1 / 25)
    0 55 (by decide) (by decide) (by decide) (by decide)
  exact ⟨h.1, h.2.2.2 1 (by rw [hs]; norm_num)⟩

end Kibo
